import Mathlib

/-!
Verification development for the `stcal` ramp-fitting module.

The dispatcher `ramp_fit` is embedded from `src/stcal/ramp_fitting/ramp_fit.py`.
The numerical core (segmenter, segment fitter, integration/exposure combiners,
work partitioner) lives in modules (`ols_fit`, `constants`, `ramp_fit_class`)
that are not part of this repository snapshot; those parts are modelled from the
specification, and each such definition is marked `Modelled from the spec`.
All indexing is by natural numbers; image planes and cubes are total functions
from indices to values, which captures NumPy arrays read at in-range indices.
-/

/-- A 2-D image plane indexed by row and column, as used for the readnoise and
gain inputs of `ramp_fit`. -/
abbrev Plane : Type := ℕ → ℕ → ℝ

/-- A 4-D science data cube indexed by integration, group, row, column. -/
abbrev Cube : Type := ℕ → ℕ → ℕ → ℕ → ℝ

/-- A 4-D integer data-quality cube with the same indexing as `Cube`. -/
abbrev GroupDQCube : Type := ℕ → ℕ → ℕ → ℕ → ℕ

/-- The flag-name-to-bit mapping passed to `ramp_fit` as `dqflags`, with one
entry per required key; a `none` entry models a Python `None` value for that
key (an unmapped flag name). -/
structure DQFlagsMap where
  doNotUse : Option ℕ
  saturated : Option ℕ
  jumpDet : Option ℕ
  noGainValue : Option ℕ
  unreliableSlope : Option ℕ
deriving DecidableEq

/-- The list of values of the mapping, mirroring `constants.dqflags.values()`. -/
def DQFlagsMap.values (m : DQFlagsMap) : List (Option ℕ) :=
  [m.doNotUse, m.saturated, m.jumpDet, m.noGainValue, m.unreliableSlope]

/-- The test `None in constants.dqflags.values()` performed by `ramp_fit`. -/
def DQFlagsMap.hasNone (m : DQFlagsMap) : Bool :=
  m.values.any Option.isNone

/-- The scalar exposure metadata read by `create_ramp_fit_class` from
`model.meta`. -/
structure ExposureMeta where
  name : String
  frame_time : ℝ
  exp_ngroups : ℕ
  group_time : ℝ
  groupgap : ℕ
  nframes : ℕ
  drop_frames1 : ℕ

/-- The input data model of `ramp_fit` (a `RampModel`): the science, error and
group-DQ cubes, the pixel-DQ plane, integration times and metadata. -/
structure RampModel where
  data : Cube
  err : Cube
  groupdq : GroupDQCube
  pixeldq : ℕ → ℕ → ℕ
  int_times : List ℝ
  meta : ExposureMeta

/-- The internal ramp class built by `create_ramp_fit_class` via `set_arrays`,
`set_meta` and `set_dqflags`. -/
structure RampFitInternal where
  data : Cube
  err : Cube
  groupdq : GroupDQCube
  pixeldq : ℕ → ℕ → ℕ
  int_times : List ℝ
  meta : ExposureMeta
  dqflags : DQFlagsMap

/-- Embedding of `create_ramp_fit_class`: copy the model's arrays and metadata
into the internal ramp class together with the flag mapping. -/
def create_ramp_fit_class (model : RampModel) (dqflags : DQFlagsMap) :
    RampFitInternal :=
  { data := model.data
    err := model.err
    groupdq := model.groupdq
    pixeldq := model.pixeldq
    int_times := model.int_times
    meta := model.meta
    dqflags := dqflags }

/-- Python's `str.upper` as used in `algorithm.upper()`, character by
character. -/
def strUpper (s : String) : String := ⟨s.data.map Char.toUpper⟩

/-- Modelled from the spec: `constants.update_dqflags` (module `constants` is
not in this snapshot) overwrites the process-wide module-level flag mapping in
place with the mapping passed to `ramp_fit` — the spec describes it as
"process-wide mutable flag-mapping state (module-level dictionary updated in
place)". -/
def update_dqflags (_oldState newState : DQFlagsMap) : DQFlagsMap := newState

/-- The observable effect of one `ramp_fit` call: the module-level
`constants.dqflags` after the call, the final contents of the caller's mutable
`readnoise_2d` and `gain_2d` arrays, and either the returned 4-tuple
`(image_info, integ_info, opt_info, gls_opt_model)` or the message of the
raised `ValueError`. -/
structure RampFitEffect (α β γ δ : Type) where
  constantsAfter : DQFlagsMap
  readnoiseAfter : Plane
  gainAfter : Plane
  outcome : Except String (Option α × Option β × Option γ × Option δ)

/-- Shallow embedding of `ramp_fit` from `ramp_fit.py`. `olsFit` stands for
the imported `ols_fit.ols_ramp_fit_multi` (its module is outside this
snapshot, so it is a parameter), and `constants0` is the module-level
`constants.dqflags` at entry. The function first builds the internal ramp
class, then updates the module-level flag mapping, raises `ValueError` when
any required flag value is `None`, short-circuits the unimplemented GLS branch
to four `None` results, and otherwise scales `readnoise_2d` in place by
`gain_2d / sqrt(2 * nframes)` and dispatches to the OLS fit. -/
noncomputable def ramp_fit {α β γ δ : Type}
    (olsFit : RampFitInternal → ℕ → Bool → Plane → Plane → String → String →
      α × β × γ)
    (constants0 : DQFlagsMap)
    (model : RampModel) (buffsize : ℕ) (save_opt : Bool)
    (readnoise_2d gain_2d : Plane)
    (algorithm weighting max_cores : String)
    (dqflags : DQFlagsMap) : RampFitEffect α β γ δ :=
  let ramp_class := create_ramp_fit_class model dqflags
  let constants1 := update_dqflags constants0 dqflags
  if constants1.hasNone then
    { constantsAfter := constants1
      readnoiseAfter := readnoise_2d
      gainAfter := gain_2d
      outcome :=
        .error "Some of the DQ flags required for ramp_fitting are None." }
  else if strUpper algorithm = "GLS" then
    { constantsAfter := constants1
      readnoiseAfter := readnoise_2d
      gainAfter := gain_2d
      outcome := .ok (none, none, none, none) }
  else
    let readnoise_scaled : Plane := fun r c =>
      readnoise_2d r c * (gain_2d r c / Real.sqrt (2 * (model.meta.nframes : ℝ)))
    let fitted := olsFit ramp_class buffsize save_opt readnoise_scaled gain_2d
      weighting max_cores
    { constantsAfter := constants1
      readnoiseAfter := readnoise_scaled
      gainAfter := gain_2d
      outcome := .ok (some fitted.1, some fitted.2.1, some fitted.2.2, none) }

/-- Per-sample data-quality view used by the segmenter: whether the sample is
flagged DO_NOT_USE, SATURATED or JUMP_DET. -/
structure SampleDQ where
  doNotUse : Bool
  saturated : Bool
  jumpDet : Bool
deriving DecidableEq

/-- The default sample used by out-of-range `getD` reads; it is flagged
DO_NOT_USE so that out-of-range indices are never usable. -/
def defaultDQ : SampleDQ := ⟨true, false, false⟩

/-- Close the segment currently being built (if any) into a singleton list. -/
def closeSeg : Option (ℕ × ℕ) → List (ℕ × ℕ)
  | none => []
  | some sg => [sg]

/-- Modelled from the spec (§4.1 Segmenter; module `ols_fit` is not in this
snapshot): scan the remaining per-sample flags starting at absolute sample
index `i`, with `cur` the (start, length) of the segment currently being
built. A SATURATED sample ends the current segment and stops the scan; a
DO_NOT_USE sample ends the current segment and starts none; a JUMP_DET sample
ends the current segment and starts a new one at the flagged sample itself;
any other sample extends the current segment or starts one. -/
def segmentFrom : List SampleDQ → ℕ → Option (ℕ × ℕ) → List (ℕ × ℕ)
  | [], _, cur => closeSeg cur
  | f :: rest, i, cur =>
    if f.saturated then closeSeg cur
    else if f.doNotUse then closeSeg cur ++ segmentFrom rest (i + 1) none
    else if f.jumpDet then closeSeg cur ++ segmentFrom rest (i + 1) (some (i, 1))
    else
      match cur with
      | none => segmentFrom rest (i + 1) (some (i, 1))
      | some (s, len) => segmentFrom rest (i + 1) (some (s, len + 1))

/-- Modelled from the spec (§4.1): the segments of one pixel's integration,
as (start sample, length) pairs in increasing order of start. -/
def segmentRamp (flags : List SampleDQ) : List (ℕ × ℕ) :=
  segmentFrom flags 0 none

/-- Sample `j` lies inside segment `sg` (a start/length pair). -/
def memSeg (sg : ℕ × ℕ) (j : ℕ) : Prop :=
  sg.1 ≤ j ∧ j < sg.1 + sg.2

instance (sg : ℕ × ℕ) (j : ℕ) : Decidable (memSeg sg j) := by
  unfold memSeg; infer_instance

/-- The index of the first SATURATED sample, or the ramp length when none is
saturated; no segment may reach this bound. -/
def satBound (flags : List SampleDQ) : ℕ :=
  flags.findIdx (·.saturated)

/-- Sample `j` is usable: it lies before the first SATURATED sample and is not
flagged DO_NOT_USE. -/
def goodAt (flags : List SampleDQ) (j : ℕ) : Prop :=
  j < satBound flags ∧ (flags.getD j defaultDQ).doNotUse = false

instance (flags : List SampleDQ) (j : ℕ) : Decidable (goodAt flags j) := by
  unfold goodAt; infer_instance

/-- A segment or integration result as consumed by the combiners: a slope and
a variance, where `none` is the "unusable" sentinel variance. -/
abbrev CombInput : Type := ℚ × Option ℚ

/-- The usable (non-sentinel) slope/variance pairs of a result list. -/
def usableOf (rs : List CombInput) : List (ℚ × ℚ) :=
  rs.filterMap fun r => r.2.map fun v => (r.1, v)

/-- The sum of inverse variances Σ (1 / var_i) over usable results. -/
def wsum (u : List (ℚ × ℚ)) : ℚ :=
  (u.map fun p => 1 / p.2).sum

/-- The inverse-variance weighted slope sum Σ (slope_i / var_i). -/
def ssum (u : List (ℚ × ℚ)) : ℚ :=
  (u.map fun p => p.1 / p.2).sum

/-- Modelled from the spec (§4.3 Integration Combiner and §4.4 Exposure
Combiner): inverse-variance combination — excluding sentinel-variance inputs,
the combined slope is Σ(slope_i / var_i) / Σ(1 / var_i) and the combined
variance is 1 / Σ(1 / var_i); with no usable input the result is slope 0 with
sentinel variance. Real arithmetic is idealized as exact rationals. -/
def combineResults (rs : List CombInput) : CombInput :=
  if usableOf rs = [] then (0, none)
  else (ssum (usableOf rs) / wsum (usableOf rs), some (1 / wsum (usableOf rs)))

/-- All usable variances in the list are positive (physical variances). -/
def posVar (rs : List CombInput) : Prop :=
  ∀ p ∈ usableOf rs, 0 < p.2

instance (rs : List CombInput) : Decidable (posVar rs) := by
  unfold posVar; infer_instance

/-- Streaming combination: fold the inputs one at a time into an accumulator
that starts as the empty (slope 0, sentinel) result. -/
def streamCombine (rs : List CombInput) : CombInput :=
  rs.foldl (fun acc r => combineResults [acc, r]) (0, none)

/-- A per-integration (or per-exposure) result for one pixel: slope, variance
(`none` is the sentinel) and whether UNRELIABLE_SLOPE is set. -/
structure IntegResult where
  slope : ℚ
  variance : Option ℚ
  unreliableSlope : Bool
deriving DecidableEq

/-- Modelled from the spec (§4.1–§4.3): fit one pixel/integration — segment
the flags, fit each segment with `fitSeg`, and combine by inverse-variance
weighting; if no usable segment remains the result is slope 0, sentinel
variance, and UNRELIABLE_SLOPE set. -/
def fitIntegration (fitSeg : ℕ × ℕ → CombInput) (flags : List SampleDQ) :
    IntegResult :=
  let c := combineResults ((segmentRamp flags).map fitSeg)
  ⟨c.1, c.2, c.2.isNone⟩

/-- Modelled from the spec (§5): per-pixel processing of a batch — every pixel
is processed, and an unusable pixel never aborts the others. -/
def processBatch (fitSeg : ℕ × ℕ → CombInput)
    (pixels : List (List SampleDQ)) : List IntegResult :=
  pixels.map (fitIntegration fitSeg)

/-- The pixel/integration has zero usable samples: every sample is flagged
DO_NOT_USE or lies at or after a SATURATED sample. -/
def allUnusable (flags : List SampleDQ) : Prop :=
  ∀ j, j < flags.length →
    (flags.getD j defaultDQ).doNotUse = true ∨
    ∃ k, k ≤ j ∧ (flags.getD k defaultDQ).saturated = true

/-- The worker-count policy token accepted as `max_cores`. -/
inductive MaxCores where
  | none
  | quarter
  | half
  | all
deriving DecidableEq

/-- Modelled from the spec (§4.5): the number of worker processes derived by a
coarse policy from the available CPU count. -/
def policyWorkers : MaxCores → ℕ → ℕ
  | .none, _ => 1
  | .quarter, cpus => max 1 (cpus / 4)
  | .half, cpus => max 1 (cpus / 2)
  | .all, cpus => cpus

/-- Modelled from the spec (§4.5 Work Partitioner): split `n` rows starting at
row `start` into contiguous sections of at most `max 1 chunk` rows (the
per-section memory budget), in row-major order, as (first row, row count)
pairs. -/
def makeSections (chunk : ℕ) : ℕ → ℕ → List (ℕ × ℕ)
  | _, 0 => []
  | start, n + 1 =>
    (start, min (max 1 chunk) (n + 1)) ::
      makeSections chunk (start + min (max 1 chunk) (n + 1))
        (n + 1 - min (max 1 chunk) (n + 1))
termination_by _ n => n
decreasing_by omega

/-- Process one section: apply the pure per-row fit `f` to each row of the
section, in row order. -/
def processSection {α : Type} (f : ℕ → α) (sec : ℕ × ℕ) : List α :=
  (List.range sec.2).map fun k => f (sec.1 + k)

/-- Modelled from the spec (§4.5): deterministic round-robin assignment —
worker `t` of `w` processes exactly the sections whose index is congruent to
`t` modulo `w`, tagging each section result with its section index. -/
def workerOut {α : Type} (f : ℕ → α) (sections : List (ℕ × ℕ)) (w t : ℕ) :
    List (ℕ × List α) :=
  (sections.enum.filter fun p => p.1 % w == t).map
    fun p => (p.1, processSection f p.2)

/-- The tagged results of all workers, in worker order (an arbitrary completion
order is irrelevant because reassembly is keyed on the section index). -/
def allWorkerOut {α : Type} (f : ℕ → α) (sections : List (ℕ × ℕ)) (w : ℕ) :
    List (ℕ × List α) :=
  (List.range w).flatMap fun t => workerOut f sections w t

/-- Modelled from the spec (§5): reassembly keyed on section index, not on
completion order — section results are concatenated in original section
order. -/
def reassemble {α : Type} (tagged : List (ℕ × List α)) (nsec : ℕ) : List α :=
  (List.range nsec).flatMap fun idx =>
    ((tagged.find? fun q => q.1 == idx).map Prod.snd).getD []

/-- Modelled from the spec (§4.5, §5): the full partition/process/reassemble
pipeline for a per-row pure fit `f` over `nrows` rows under worker policy `p`
with `cpus` available CPUs. -/
def runCore {α : Type} (f : ℕ → α) (nrows chunk : ℕ) (p : MaxCores)
    (cpus : ℕ) : List α :=
  let sections := makeSections chunk 0 nrows
  reassemble (allWorkerOut f sections (policyWorkers p cpus)) sections.length

theorem closeSeg_mem_iff (cur : Option (ℕ × ℕ)) (j : ℕ) :
    (∃ sg ∈ closeSeg cur, memSeg sg j) ↔
      ∃ s l, cur = some (s, l) ∧ s ≤ j ∧ j < s + l := by
  cases cur with
  | none => simp [closeSeg]
  | some sg =>
    obtain ⟨s, l⟩ := sg
    simp only [closeSeg, List.mem_singleton]
    constructor
    · rintro ⟨sg2, rfl, h⟩
      exact ⟨s, l, rfl, h.1, h.2⟩
    · rintro ⟨s1, l1, heq, h1, h2⟩
      injection heq with heq2
      injection heq2 with heq3 heq4
      subst heq3; subst heq4
      exact ⟨(s, l), rfl, h1, h2⟩

theorem satBound_cons (f : SampleDQ) (rest : List SampleDQ) :
    satBound (f :: rest) = if f.saturated then 0 else satBound rest + 1 := by
  unfold satBound
  rw [List.findIdx_cons]
  cases hf : f.saturated <;> simp [hf]

theorem goodAt_cons_shift (f : SampleDQ) (rest : List SampleDQ) (i j : ℕ)
    (hsat : f.saturated = false) :
    (i ≤ j ∧ goodAt (f :: rest) (j - i)) ↔
      ((j = i ∧ f.doNotUse = false) ∨ (i + 1 ≤ j ∧ goodAt rest (j - (i + 1)))) := by
  unfold goodAt
  rw [satBound_cons, if_neg (by simp [hsat])]
  constructor
  · rintro ⟨hij, hlt, hdnu⟩
    rcases Nat.eq_or_lt_of_le hij with heq | hlt2
    · left
      refine ⟨heq.symm, ?_⟩
      have h0 : j - i = 0 := by omega
      rw [h0] at hdnu
      simpa using hdnu
    · right
      have hk : j - i = (j - (i + 1)) + 1 := by omega
      rw [hk] at hlt hdnu
      rw [List.getD_cons_succ] at hdnu
      exact ⟨by omega, by omega, hdnu⟩
  · rintro (⟨heq, hdnu⟩ | ⟨hij, hlt, hdnu⟩)
    · subst heq
      exact ⟨le_rfl, by omega, by simp [Nat.sub_self, hdnu]⟩
    · have hk : j - i = (j - (i + 1)) + 1 := by omega
      refine ⟨by omega, ?_, ?_⟩
      · rw [hk]; omega
      · rw [hk, List.getD_cons_succ]; exact hdnu

theorem segmentFrom_mem_iff (rest : List SampleDQ) :
    ∀ (i : ℕ) (cur : Option (ℕ × ℕ)),
      (∀ s l, cur = some (s, l) → s + l = i ∧ 0 < l) → ∀ j,
      ((∃ sg ∈ segmentFrom rest i cur, memSeg sg j) ↔
        ((∃ s l, cur = some (s, l) ∧ s ≤ j ∧ j < i) ∨
          (i ≤ j ∧ goodAt rest (j - i)))) := by
  induction rest with
  | nil =>
    intro i cur hcur j
    have hclose : (∃ sg ∈ closeSeg cur, memSeg sg j) ↔
        (∃ s l, cur = some (s, l) ∧ s ≤ j ∧ j < i) := by
      rw [closeSeg_mem_iff]
      constructor
      · rintro ⟨s, l, hc, h1, h2⟩
        exact ⟨s, l, hc, h1, by have := (hcur s l hc).1; omega⟩
      · rintro ⟨s, l, hc, h1, h2⟩
        exact ⟨s, l, hc, h1, by have := (hcur s l hc).1; omega⟩
    rw [show segmentFrom [] i cur = closeSeg cur from rfl, hclose]
    have hgood : ¬goodAt [] (j - i) := by
      unfold goodAt satBound
      simp
    exact ⟨fun h => Or.inl h, fun h => h.resolve_right fun hr => hgood hr.2⟩
  | cons f rest2 ih =>
    intro i cur hcur j
    have hclose : ∀ jj, (∃ sg ∈ closeSeg cur, memSeg sg jj) ↔
        (∃ s l, cur = some (s, l) ∧ s ≤ jj ∧ jj < i) := by
      intro jj
      rw [closeSeg_mem_iff]
      constructor
      · rintro ⟨s, l, hc, h1, h2⟩
        exact ⟨s, l, hc, h1, by have := (hcur s l hc).1; omega⟩
      · rintro ⟨s, l, hc, h1, h2⟩
        exact ⟨s, l, hc, h1, by have := (hcur s l hc).1; omega⟩
    by_cases hsat : f.saturated = true
    · have hseg : segmentFrom (f :: rest2) i cur = closeSeg cur := by
        simp [segmentFrom, hsat]
      rw [hseg, hclose]
      have hgood : ¬(i ≤ j ∧ goodAt (f :: rest2) (j - i)) := by
        rintro ⟨-, hlt, -⟩
        rw [satBound_cons] at hlt
        simp [hsat] at hlt
      exact ⟨fun h => Or.inl h, fun h => h.resolve_right fun hr => hgood hr⟩
    · have hsat2 : f.saturated = false := by simpa using hsat
      by_cases hdnu : f.doNotUse = true
      · have hseg : segmentFrom (f :: rest2) i cur =
            closeSeg cur ++ segmentFrom rest2 (i + 1) none := by
          simp [segmentFrom, hsat, hdnu]
        rw [hseg]
        simp only [List.mem_append, or_and_right, exists_or]
        rw [hclose j, ih (i + 1) none (by simp) j,
          goodAt_cons_shift f rest2 i j hsat2]
        simp [hdnu]
      · have hdnu2 : f.doNotUse = false := by simpa using hdnu
        have hnewinv : ∀ s l, (some (i, 1) : Option (ℕ × ℕ)) = some (s, l) →
            s + l = i + 1 ∧ 0 < l := by
          rintro s l h
          injection h with h2
          injection h2 with h3 h4
          omega
        have harith : (∃ s l, (some (i, 1) : Option (ℕ × ℕ)) = some (s, l) ∧
            s ≤ j ∧ j < i + 1) ↔ (j = i ∧ f.doNotUse = false) := by
          constructor
          · rintro ⟨s, l, heq, h1, h2⟩
            injection heq with heq2
            injection heq2 with heq3 heq4
            subst heq3
            exact ⟨by omega, hdnu2⟩
          · rintro ⟨rfl, -⟩
            exact ⟨j, 1, rfl, le_rfl, by omega⟩
        by_cases hjmp : f.jumpDet = true
        · have hseg : segmentFrom (f :: rest2) i cur =
              closeSeg cur ++ segmentFrom rest2 (i + 1) (some (i, 1)) := by
            simp [segmentFrom, hsat, hdnu, hjmp]
          rw [hseg]
          simp only [List.mem_append, or_and_right, exists_or]
          rw [hclose j, ih (i + 1) (some (i, 1)) hnewinv j,
            goodAt_cons_shift f rest2 i j hsat2, harith]
        · cases cur with
          | none =>
            have hseg : segmentFrom (f :: rest2) i none =
                segmentFrom rest2 (i + 1) (some (i, 1)) := by
              simp [segmentFrom, hsat, hdnu, hjmp]
            rw [hseg, ih (i + 1) (some (i, 1)) hnewinv j,
              goodAt_cons_shift f rest2 i j hsat2, harith]
            simp
          | some sg =>
            obtain ⟨s0, l0⟩ := sg
            obtain ⟨hinv1, hinv2⟩ := hcur s0 l0 rfl
            have hextinv : ∀ s l,
                (some (s0, l0 + 1) : Option (ℕ × ℕ)) = some (s, l) →
                s + l = i + 1 ∧ 0 < l := by
              rintro s l h
              injection h with h2
              injection h2 with h3 h4
              omega
            have hseg : segmentFrom (f :: rest2) i (some (s0, l0)) =
                segmentFrom rest2 (i + 1) (some (s0, l0 + 1)) := by
              simp [segmentFrom, hsat, hdnu, hjmp]
            rw [hseg, ih (i + 1) (some (s0, l0 + 1)) hextinv j,
              goodAt_cons_shift f rest2 i j hsat2]
            have h1 : (∃ s l, (some (s0, l0 + 1) : Option (ℕ × ℕ)) = some (s, l) ∧
                s ≤ j ∧ j < i + 1) ↔ (s0 ≤ j ∧ j < i + 1) := by
              constructor
              · rintro ⟨s, l, heq, ha, hb⟩
                injection heq with heq2
                injection heq2 with heq3 heq4
                subst heq3
                exact ⟨ha, hb⟩
              · rintro ⟨ha, hb⟩
                exact ⟨s0, l0 + 1, rfl, ha, hb⟩
            have h2 : (∃ s l, (some (s0, l0) : Option (ℕ × ℕ)) = some (s, l) ∧
                s ≤ j ∧ j < i) ↔ (s0 ≤ j ∧ j < i) := by
              constructor
              · rintro ⟨s, l, heq, ha, hb⟩
                injection heq with heq2
                injection heq2 with heq3 heq4
                subst heq3
                exact ⟨ha, hb⟩
              · rintro ⟨ha, hb⟩
                exact ⟨s0, l0, rfl, ha, hb⟩
            rw [h1, h2]
            have harith2 : (s0 ≤ j ∧ j < i + 1) ↔
                ((s0 ≤ j ∧ j < i) ∨ (j = i ∧ f.doNotUse = false)) := by
              rw [hdnu2]
              constructor
              · rintro ⟨ha, hb⟩
                rcases Nat.lt_or_ge j i with h | h
                · exact Or.inl ⟨ha, h⟩
                · exact Or.inr ⟨by omega, rfl⟩
              · rintro (⟨ha, hb⟩ | ⟨rfl, -⟩)
                · exact ⟨ha, by omega⟩
                · exact ⟨by omega, by omega⟩
            rw [harith2, or_assoc]

/-- The least possible start of any segment still to be produced: the current
segment's start, or the current scan position. -/
def segLB : Option (ℕ × ℕ) → ℕ → ℕ
  | some sl, _ => sl.1
  | none, i => i

theorem segmentFrom_sorted (rest : List SampleDQ) :
    ∀ (i : ℕ) (cur : Option (ℕ × ℕ)),
      (∀ s l, cur = some (s, l) → s + l = i ∧ 0 < l) →
      ((segmentFrom rest i cur).Pairwise (fun a b => a.1 + a.2 ≤ b.1) ∧
        ∀ sg ∈ segmentFrom rest i cur, 0 < sg.2 ∧ segLB cur i ≤ sg.1) := by
  induction rest with
  | nil =>
    intro i cur hcur
    cases cur with
    | none => simp [segmentFrom, closeSeg]
    | some sg =>
      obtain ⟨s, l⟩ := sg
      obtain ⟨h1, h2⟩ := hcur s l rfl
      refine ⟨List.pairwise_singleton _ _, ?_⟩
      intro sg2 hsg2
      rw [show segmentFrom [] i (some (s, l)) = [(s, l)] from rfl,
        List.mem_singleton] at hsg2
      subst hsg2
      exact ⟨h2, le_rfl⟩
  | cons f rest2 ih =>
    intro i cur hcur
    have hcl : (closeSeg cur).Pairwise (fun a b => a.1 + a.2 ≤ b.1) := by
      cases cur with
      | none => exact List.Pairwise.nil
      | some sg => exact List.pairwise_singleton _ _
    have hclmem : ∀ sg ∈ closeSeg cur, 0 < sg.2 ∧ segLB cur i ≤ sg.1 := by
      cases cur with
      | none => simp [closeSeg]
      | some sg0 =>
        obtain ⟨s, l⟩ := sg0
        obtain ⟨h1, h2⟩ := hcur s l rfl
        intro sg hsg
        rw [show closeSeg (some (s, l)) = [(s, l)] from rfl,
          List.mem_singleton] at hsg
        subst hsg
        exact ⟨h2, le_rfl⟩
    have hclend : ∀ sg ∈ closeSeg cur, sg.1 + sg.2 ≤ i := by
      cases cur with
      | none => simp [closeSeg]
      | some sg0 =>
        obtain ⟨s, l⟩ := sg0
        obtain ⟨h1, h2⟩ := hcur s l rfl
        intro sg hsg
        rw [show closeSeg (some (s, l)) = [(s, l)] from rfl,
          List.mem_singleton] at hsg
        subst hsg
        omega
    by_cases hsat : f.saturated = true
    · rw [show segmentFrom (f :: rest2) i cur = closeSeg cur from by
        simp [segmentFrom, hsat]]
      exact ⟨hcl, hclmem⟩
    · have hsat2 : f.saturated = false := by simpa using hsat
      by_cases hdnu : f.doNotUse = true
      · obtain ⟨hp, hm⟩ := ih (i + 1) none (by simp)
        rw [show segmentFrom (f :: rest2) i cur =
            closeSeg cur ++ segmentFrom rest2 (i + 1) none from by
          simp [segmentFrom, hsat, hdnu]]
        constructor
        · rw [List.pairwise_append]
          refine ⟨hcl, hp, ?_⟩
          intro a ha b hb
          have h1 := hclend a ha
          have h2 := (hm b hb).2
          simp only [segLB] at h2
          omega
        · intro sg hsg
          rcases List.mem_append.mp hsg with h | h
          · exact hclmem sg h
          · obtain ⟨hpos, hlb⟩ := hm sg h
            simp only [segLB] at hlb
            refine ⟨hpos, ?_⟩
            cases cur with
            | none => simp only [segLB]; omega
            | some sg0 =>
              obtain ⟨s, l⟩ := sg0
              obtain ⟨h1, h2⟩ := hcur s l rfl
              simp only [segLB]
              omega
      · have hdnu2 : f.doNotUse = false := by simpa using hdnu
        have hnewinv : ∀ s l, (some (i, 1) : Option (ℕ × ℕ)) = some (s, l) →
            s + l = i + 1 ∧ 0 < l := by
          rintro s l h
          injection h with h2
          injection h2 with h3 h4
          omega
        by_cases hjmp : f.jumpDet = true
        · obtain ⟨hp, hm⟩ := ih (i + 1) (some (i, 1)) hnewinv
          rw [show segmentFrom (f :: rest2) i cur =
              closeSeg cur ++ segmentFrom rest2 (i + 1) (some (i, 1)) from by
            simp [segmentFrom, hsat, hdnu, hjmp]]
          constructor
          · rw [List.pairwise_append]
            refine ⟨hcl, hp, ?_⟩
            intro a ha b hb
            have h1 := hclend a ha
            have h2 := (hm b hb).2
            simp only [segLB] at h2
            omega
          · intro sg hsg
            rcases List.mem_append.mp hsg with h | h
            · exact hclmem sg h
            · obtain ⟨hpos, hlb⟩ := hm sg h
              simp only [segLB] at hlb
              refine ⟨hpos, ?_⟩
              cases cur with
              | none => simp only [segLB]; omega
              | some sg0 =>
                obtain ⟨s, l⟩ := sg0
                obtain ⟨h1, h2⟩ := hcur s l rfl
                simp only [segLB]
                omega
        · cases cur with
          | none =>
            obtain ⟨hp, hm⟩ := ih (i + 1) (some (i, 1)) hnewinv
            rw [show segmentFrom (f :: rest2) i none =
                segmentFrom rest2 (i + 1) (some (i, 1)) from by
              simp [segmentFrom, hsat, hdnu, hjmp]]
            refine ⟨hp, ?_⟩
            intro sg hsg
            obtain ⟨hpos, hlb⟩ := hm sg hsg
            simp only [segLB] at hlb
            exact ⟨hpos, by simp only [segLB]; omega⟩
          | some sg0 =>
            obtain ⟨s0, l0⟩ := sg0
            obtain ⟨hinv1, hinv2⟩ := hcur s0 l0 rfl
            have hextinv : ∀ s l,
                (some (s0, l0 + 1) : Option (ℕ × ℕ)) = some (s, l) →
                s + l = i + 1 ∧ 0 < l := by
              rintro s l h
              injection h with h2
              injection h2 with h3 h4
              omega
            obtain ⟨hp, hm⟩ := ih (i + 1) (some (s0, l0 + 1)) hextinv
            rw [show segmentFrom (f :: rest2) i (some (s0, l0)) =
                segmentFrom rest2 (i + 1) (some (s0, l0 + 1)) from by
              simp [segmentFrom, hsat, hdnu, hjmp]]
            refine ⟨hp, ?_⟩
            intro sg hsg
            obtain ⟨hpos, hlb⟩ := hm sg hsg
            simp only [segLB] at hlb
            exact ⟨hpos, by simp only [segLB]; omega⟩

theorem segmentFrom_cur_start (rest : List SampleDQ) :
    ∀ (i s l : ℕ), ∃ sg ∈ segmentFrom rest i (some (s, l)), sg.1 = s := by
  induction rest with
  | nil =>
    intro i s l
    exact ⟨(s, l), by simp [segmentFrom, closeSeg], rfl⟩
  | cons f rest2 ih =>
    intro i s l
    by_cases hsat : f.saturated = true
    · exact ⟨(s, l), by simp [segmentFrom, hsat, closeSeg], rfl⟩
    · by_cases hdnu : f.doNotUse = true
      · refine ⟨(s, l), ?_, rfl⟩
        rw [show segmentFrom (f :: rest2) i (some (s, l)) =
            closeSeg (some (s, l)) ++ segmentFrom rest2 (i + 1) none from by
          simp [segmentFrom, hsat, hdnu]]
        exact List.mem_append_left _ (by simp [closeSeg])
      · by_cases hjmp : f.jumpDet = true
        · refine ⟨(s, l), ?_, rfl⟩
          rw [show segmentFrom (f :: rest2) i (some (s, l)) =
              closeSeg (some (s, l)) ++ segmentFrom rest2 (i + 1) (some (i, 1))
              from by simp [segmentFrom, hsat, hdnu, hjmp]]
          exact List.mem_append_left _ (by simp [closeSeg])
        · obtain ⟨sg, hmem, hstart⟩ := ih (i + 1) s (l + 1)
          refine ⟨sg, ?_, hstart⟩
          rw [show segmentFrom (f :: rest2) i (some (s, l)) =
              segmentFrom rest2 (i + 1) (some (s, l + 1)) from by
            simp [segmentFrom, hsat, hdnu, hjmp]]
          exact hmem

theorem segmentFrom_jump_start (rest : List SampleDQ) :
    ∀ (i : ℕ) (cur : Option (ℕ × ℕ)) (k : ℕ),
      k < satBound rest →
      (rest.getD k defaultDQ).doNotUse = false →
      (rest.getD k defaultDQ).jumpDet = true →
      ∃ sg ∈ segmentFrom rest i cur, sg.1 = i + k := by
  induction rest with
  | nil =>
    intro i cur k hk _ _
    unfold satBound at hk
    simp at hk
  | cons f rest2 ih =>
    intro i cur k hk hdnu hjmp
    have hsat2 : f.saturated = false := by
      rcases hf : f.saturated with _ | _
      · rfl
      · rw [satBound_cons, if_pos (by simp [hf])] at hk
        omega
    cases k with
    | zero =>
      rw [List.getD_cons_zero] at hdnu hjmp
      obtain ⟨sg, hmem, hstart⟩ := segmentFrom_cur_start rest2 (i + 1) i 1
      refine ⟨sg, ?_, by omega⟩
      rw [show segmentFrom (f :: rest2) i cur =
          closeSeg cur ++ segmentFrom rest2 (i + 1) (some (i, 1)) from by
        simp [segmentFrom, hsat2, hdnu, hjmp]]
      exact List.mem_append_right _ hmem
    | succ k2 =>
      rw [List.getD_cons_succ] at hdnu hjmp
      have hk2 : k2 < satBound rest2 := by
        rw [satBound_cons, if_neg (by simp [hsat2])] at hk
        omega
      by_cases hfd : f.doNotUse = true
      · obtain ⟨sg, hmem, hstart⟩ := ih (i + 1) none k2 hk2 hdnu hjmp
        refine ⟨sg, ?_, by omega⟩
        rw [show segmentFrom (f :: rest2) i cur =
            closeSeg cur ++ segmentFrom rest2 (i + 1) none from by
          simp [segmentFrom, hsat2, hfd]]
        exact List.mem_append_right _ hmem
      · have hfd2 : f.doNotUse = false := by simpa using hfd
        by_cases hfj : f.jumpDet = true
        · obtain ⟨sg, hmem, hstart⟩ := ih (i + 1) (some (i, 1)) k2 hk2 hdnu hjmp
          refine ⟨sg, ?_, by omega⟩
          rw [show segmentFrom (f :: rest2) i cur =
              closeSeg cur ++ segmentFrom rest2 (i + 1) (some (i, 1)) from by
            simp [segmentFrom, hsat2, hfd, hfj]]
          exact List.mem_append_right _ hmem
        · cases cur with
          | none =>
            obtain ⟨sg, hmem, hstart⟩ := ih (i + 1) (some (i, 1)) k2 hk2 hdnu hjmp
            refine ⟨sg, ?_, by omega⟩
            rw [show segmentFrom (f :: rest2) i none =
                segmentFrom rest2 (i + 1) (some (i, 1)) from by
              simp [segmentFrom, hsat2, hfd, hfj]]
            exact hmem
          | some sg0 =>
            obtain ⟨s0, l0⟩ := sg0
            obtain ⟨sg, hmem, hstart⟩ :=
              ih (i + 1) (some (s0, l0 + 1)) k2 hk2 hdnu hjmp
            refine ⟨sg, ?_, by omega⟩
            rw [show segmentFrom (f :: rest2) i (some (s0, l0)) =
                segmentFrom rest2 (i + 1) (some (s0, l0 + 1)) from by
              simp [segmentFrom, hsat2, hfd, hfj]]
            exact hmem

instance (flags : List SampleDQ) : Decidable (allUnusable flags) := by
  unfold allUnusable; infer_instance

theorem goodAt_not_of_allUnusable (flags : List SampleDQ)
    (h : allUnusable flags) (j : ℕ) : ¬goodAt flags j := by
  intro hg
  unfold goodAt at hg
  obtain ⟨hlt, hdnu⟩ := hg
  have hlen : j < flags.length :=
    lt_of_lt_of_le hlt (List.findIdx_le_length _)
  rcases h j hlen with hD | ⟨k, hk, hsk⟩
  · rw [hD] at hdnu
    exact Bool.noConfusion hdnu
  · have hklt : k < satBound flags := lt_of_le_of_lt hk hlt
    unfold satBound at hklt
    have hkf := @List.not_of_lt_findIdx SampleDQ (·.saturated) flags k hklt
    have hklen : k < flags.length := by
      have := @List.findIdx_le_length SampleDQ (·.saturated) flags
      omega
    rw [List.getD_eq_getElem flags defaultDQ hklen] at hsk
    simp only [hsk] at hkf
    exact Bool.noConfusion hkf

theorem segmentRamp_eq_nil_of_allUnusable (flags : List SampleDQ)
    (h : allUnusable flags) : segmentRamp flags = [] := by
  rcases hn : segmentRamp flags with _ | ⟨sg, rest⟩
  · rfl
  · exfalso
    have hsg : sg ∈ segmentRamp flags := by
      rw [hn]; exact List.mem_cons_self _ _
    have hpos := ((segmentFrom_sorted flags 0 none (by simp)).2 sg hsg).1
    have hc : ∃ sg2 ∈ segmentFrom flags 0 none, memSeg sg2 sg.1 :=
      ⟨sg, hsg, by unfold memSeg; omega⟩
    rw [segmentFrom_mem_iff flags 0 none (by simp) sg.1] at hc
    rcases hc with ⟨s, l, h0, -⟩ | ⟨-, hg⟩
    · exact Option.noConfusion h0
    · rw [Nat.sub_zero] at hg
      exact goodAt_not_of_allUnusable flags h sg.1 hg

theorem usableOf_append (as bs : List CombInput) :
    usableOf (as ++ bs) = usableOf as ++ usableOf bs := by
  unfold usableOf
  exact List.filterMap_append as bs _

theorem wsum_append (u v : List (ℚ × ℚ)) :
    wsum (u ++ v) = wsum u + wsum v := by
  unfold wsum
  rw [List.map_append, List.sum_append]

theorem ssum_append (u v : List (ℚ × ℚ)) :
    ssum (u ++ v) = ssum u + ssum v := by
  unfold ssum
  rw [List.map_append, List.sum_append]

theorem combineResults_congr_usable {as bs : List CombInput}
    (h : usableOf as = usableOf bs) : combineResults as = combineResults bs := by
  unfold combineResults
  rw [h]

theorem wsum_nonneg {u : List (ℚ × ℚ)} (h : ∀ p ∈ u, 0 < p.2) : 0 ≤ wsum u := by
  induction u with
  | nil => simp [wsum]
  | cons p rest ih =>
    have hp : 0 < p.2 := h p (List.mem_cons_self _ _)
    have hr : 0 ≤ wsum rest := ih fun q hq => h q (List.mem_cons_of_mem _ hq)
    have h1 : 0 < 1 / p.2 := by positivity
    unfold wsum at hr ⊢
    simp only [List.map_cons, List.sum_cons]
    linarith

theorem wsum_pos {u : List (ℚ × ℚ)} (h : ∀ p ∈ u, 0 < p.2) (hne : u ≠ []) :
    0 < wsum u := by
  cases u with
  | nil => exact absurd rfl hne
  | cons p rest =>
    have hp : 0 < p.2 := h p (List.mem_cons_self _ _)
    have hr : 0 ≤ wsum rest :=
      wsum_nonneg fun q hq => h q (List.mem_cons_of_mem _ hq)
    have h1 : 0 < 1 / p.2 := by positivity
    unfold wsum at hr ⊢
    simp only [List.map_cons, List.sum_cons]
    linarith

theorem usableOf_pair (a : CombInput) (v : ℚ) (r : CombInput) :
    usableOf [(a.1, some v), r] = (a.1, v) :: usableOf [r] := by
  unfold usableOf
  simp [List.filterMap_cons]

theorem combineResults_nil_usable {rs : List CombInput}
    (h : usableOf rs = []) : combineResults rs = (0, none) := by
  unfold combineResults
  rw [h]
  simp

theorem combineResults_of_usable {rs : List CombInput}
    (h : usableOf rs ≠ []) :
    combineResults rs =
      (ssum (usableOf rs) / wsum (usableOf rs),
        some (1 / wsum (usableOf rs))) := by
  unfold combineResults
  rw [if_neg h]

theorem combine_snoc (rs : List CombInput) (r : CombInput)
    (h : posVar (rs ++ [r])) :
    combineResults [combineResults rs, r] = combineResults (rs ++ [r]) := by
  have hsplit : usableOf (rs ++ [r]) = usableOf rs ++ usableOf [r] :=
    usableOf_append rs [r]
  have hposl : ∀ p ∈ usableOf rs, 0 < p.2 := by
    intro p hp
    exact h p (by rw [hsplit]; exact List.mem_append_left _ hp)
  by_cases hu : usableOf rs = []
  · rw [combineResults_nil_usable hu]
    have h1 : usableOf [((0 : ℚ), (none : Option ℚ)), r] = usableOf [r] := by
      unfold usableOf
      simp [List.filterMap_cons]
    have h2 : usableOf (rs ++ [r]) = usableOf [r] := by
      rw [hsplit, hu]
      simp
    exact combineResults_congr_usable (h1.trans h2.symm)
  · have hW : 0 < wsum (usableOf rs) := wsum_pos hposl hu
    have hWne : wsum (usableOf rs) ≠ 0 := ne_of_gt hW
    rw [combineResults_of_usable hu]
    obtain ⟨sr, vr⟩ := r
    cases vr with
    | none =>
      have h1 : usableOf
          [(ssum (usableOf rs) / wsum (usableOf rs),
            some (1 / wsum (usableOf rs))), (sr, none)] =
          [(ssum (usableOf rs) / wsum (usableOf rs), 1 / wsum (usableOf rs))] := by
        unfold usableOf
        simp [List.filterMap_cons]
      have h2 : usableOf (rs ++ [(sr, none)]) = usableOf rs := by
        rw [hsplit]
        unfold usableOf
        simp [List.filterMap_cons]
      have h3 : usableOf
          [(ssum (usableOf rs) / wsum (usableOf rs),
            some (1 / wsum (usableOf rs))), (sr, none)] ≠ [] := by
        rw [h1]
        simp
      rw [combineResults_of_usable h3, combineResults_of_usable (by rw [h2]; exact hu),
        h1, h2]
      have hw1 : wsum [(ssum (usableOf rs) / wsum (usableOf rs),
          1 / wsum (usableOf rs))] = wsum (usableOf rs) := by
        unfold wsum
        simp [one_div_one_div]
      have hs1 : ssum [(ssum (usableOf rs) / wsum (usableOf rs),
          1 / wsum (usableOf rs))] = ssum (usableOf rs) := by
        unfold ssum
        simp only [List.map_cons, List.map_nil, List.sum_cons, List.sum_nil,
          add_zero]
        field_simp
      rw [hw1, hs1]
    | some vr2 =>
      have hvr : 0 < vr2 := by
        have : ((sr, vr2) : ℚ × ℚ) ∈ usableOf (rs ++ [(sr, some vr2)]) := by
          rw [hsplit]
          refine List.mem_append_right _ ?_
          unfold usableOf
          simp [List.filterMap_cons]
        exact h _ this
      have h1 : usableOf
          [(ssum (usableOf rs) / wsum (usableOf rs),
            some (1 / wsum (usableOf rs))), (sr, some vr2)] =
          [(ssum (usableOf rs) / wsum (usableOf rs), 1 / wsum (usableOf rs)),
            (sr, vr2)] := by
        unfold usableOf
        simp [List.filterMap_cons]
      have h2 : usableOf (rs ++ [(sr, some vr2)]) =
          usableOf rs ++ [(sr, vr2)] := by
        rw [hsplit]
        unfold usableOf
        simp [List.filterMap_cons]
      have h3 : usableOf
          [(ssum (usableOf rs) / wsum (usableOf rs),
            some (1 / wsum (usableOf rs))), (sr, some vr2)] ≠ [] := by
        rw [h1]
        simp
      have h4 : usableOf (rs ++ [(sr, some vr2)]) ≠ [] := by
        rw [h2]
        simp
      rw [combineResults_of_usable h3, combineResults_of_usable h4, h1, h2]
      have hw1 : wsum [(ssum (usableOf rs) / wsum (usableOf rs),
          1 / wsum (usableOf rs)), (sr, vr2)] =
          wsum (usableOf rs) + 1 / vr2 := by
        unfold wsum
        simp [one_div_one_div]
      have hs1 : ssum [(ssum (usableOf rs) / wsum (usableOf rs),
          1 / wsum (usableOf rs)), (sr, vr2)] =
          ssum (usableOf rs) + sr / vr2 := by
        unfold ssum
        simp only [List.map_cons, List.map_nil, List.sum_cons, List.sum_nil,
          add_zero]
        field_simp
      have hw2 : wsum (usableOf rs ++ [(sr, vr2)]) =
          wsum (usableOf rs) + 1 / vr2 := by
        rw [wsum_append]
        unfold wsum
        simp
      have hs2 : ssum (usableOf rs ++ [(sr, vr2)]) =
          ssum (usableOf rs) + sr / vr2 := by
        rw [ssum_append]
        unfold ssum
        simp
      rw [hw1, hs1, hw2, hs2]

theorem combineResults_perm {rs rs2 : List CombInput} (h : rs.Perm rs2) :
    combineResults rs = combineResults rs2 := by
  have hu : (usableOf rs).Perm (usableOf rs2) := List.Perm.filterMap _ h
  have hw : wsum (usableOf rs) = wsum (usableOf rs2) := by
    unfold wsum
    exact List.Perm.sum_eq (hu.map _)
  have hs : ssum (usableOf rs) = ssum (usableOf rs2) := by
    unfold ssum
    exact List.Perm.sum_eq (hu.map _)
  by_cases hn : usableOf rs = []
  · have hn2 : usableOf rs2 = [] := by
      rw [hn] at hu
      exact hu.symm.eq_nil
    rw [combineResults_nil_usable hn, combineResults_nil_usable hn2]
  · have hn2 : usableOf rs2 ≠ [] := by
      intro h2
      rw [h2] at hu
      exact hn hu.eq_nil
    rw [combineResults_of_usable hn, combineResults_of_usable hn2, hw, hs]

theorem posVar_prefix {rs : List CombInput} {r : CombInput}
    (h : posVar (rs ++ [r])) : posVar rs := by
  intro p hp
  exact h p (by rw [usableOf_append]; exact List.mem_append_left _ hp)

theorem streamCombine_eq {rs : List CombInput} (h : posVar rs) :
    streamCombine rs = combineResults rs := by
  induction rs using List.reverseRecOn with
  | nil => rfl
  | append_singleton rs r ih =>
    have hpre := posVar_prefix h
    calc streamCombine (rs ++ [r])
        = combineResults [streamCombine rs, r] := by
          unfold streamCombine
          rw [List.foldl_append]
          rfl
      _ = combineResults [combineResults rs, r] := by rw [ih hpre]
      _ = combineResults (rs ++ [r]) := combine_snoc rs r h

theorem policyWorkers_pos (p : MaxCores) (cpus : ℕ) (h : 0 < cpus) :
    0 < policyWorkers p cpus := by
  cases p
  · exact Nat.one_pos
  · exact lt_of_lt_of_le Nat.one_pos (le_max_left 1 _)
  · exact lt_of_lt_of_le Nat.one_pos (le_max_left 1 _)
  · exact h

theorem makeSections_flatMap {α : Type} (f : ℕ → α) (chunk : ℕ) :
    ∀ (n start : ℕ),
      (makeSections chunk start n).flatMap (processSection f) =
        (List.range n).map fun k => f (start + k) := by
  intro n
  induction n using Nat.strong_induction_on with
  | _ n ih =>
    intro start
    match n with
    | 0 => simp [makeSections]
    | m + 1 =>
      rw [makeSections]
      set st := min (max 1 chunk) (m + 1) with hst
      have hst1 : 1 ≤ st := by omega
      have hstle : st ≤ m + 1 := by omega
      rw [List.flatMap_cons, ih (m + 1 - st) (by omega) (start + st)]
      have hr : List.range (m + 1) =
          List.range st ++ (List.range (m + 1 - st)).map fun x => st + x := by
        rw [← List.range_add]
        congr 1
        omega
      rw [hr, List.map_append, List.map_map]
      congr 1
      apply List.map_congr_left
      intro a _
      simp only [Function.comp]
      congr 1
      omega

theorem range_flatMap_getD {α β : Type} (g : β → List α) (d : β) :
    ∀ l : List β,
      ((List.range l.length).flatMap fun idx => g (l.getD idx d)) =
        l.flatMap g := by
  intro l
  induction l with
  | nil => simp
  | cons b bs ih =>
    rw [show (b :: bs).length = bs.length + 1 from rfl,
      List.range_succ_eq_map, List.flatMap_cons, List.flatMap_map]
    simp only [List.getD_cons_zero, List.getD_cons_succ]
    rw [ih, List.flatMap_cons]

theorem allWorkerOut_mem_elim {α : Type} {f : ℕ → α} {sections : List (ℕ × ℕ)}
    {w : ℕ} {q : ℕ × List α} (hq : q ∈ allWorkerOut f sections w) :
    ∃ h : q.1 < sections.length,
      q.2 = processSection f (sections.get ⟨q.1, h⟩) := by
  unfold allWorkerOut workerOut at hq
  rw [List.mem_flatMap] at hq
  obtain ⟨t, -, hq⟩ := hq
  rw [List.mem_map] at hq
  obtain ⟨p, hp, hpq⟩ := hq
  rw [List.mem_filter] at hp
  obtain ⟨hpe, -⟩ := hp
  rw [List.mem_enum_iff_getElem?] at hpe
  have hlen : p.1 < sections.length := by
    by_contra hge
    rw [List.getElem?_eq_none (by omega)] at hpe
    exact Option.noConfusion hpe
  subst hpq
  refine ⟨hlen, ?_⟩
  rw [List.getElem?_eq_getElem hlen] at hpe
  have hp2 : p.2 = sections[p.1] := (Option.some.inj hpe).symm
  show processSection f p.2 = processSection f (sections.get ⟨p.1, hlen⟩)
  rw [hp2, List.get_eq_getElem]

theorem allWorkerOut_mem_intro {α : Type} (f : ℕ → α) (sections : List (ℕ × ℕ))
    (w : ℕ) (hw : 0 < w) (idx : ℕ) (h : idx < sections.length) :
    (idx, processSection f (sections.get ⟨idx, h⟩)) ∈ allWorkerOut f sections w := by
  unfold allWorkerOut workerOut
  rw [List.mem_flatMap]
  refine ⟨idx % w, List.mem_range.mpr (Nat.mod_lt _ hw), ?_⟩
  rw [List.mem_map]
  refine ⟨(idx, sections.get ⟨idx, h⟩), ?_, rfl⟩
  rw [List.mem_filter]
  constructor
  · rw [List.mem_enum_iff_getElem?]
    rw [List.getElem?_eq_getElem h]
    rfl
  · simp

theorem allWorkerOut_find {α : Type} (f : ℕ → α) (sections : List (ℕ × ℕ))
    (w : ℕ) (hw : 0 < w) (idx : ℕ) (h : idx < sections.length) :
    (allWorkerOut f sections w).find? (fun q => q.1 == idx) =
      some (idx, processSection f (sections.get ⟨idx, h⟩)) := by
  have hmem := allWorkerOut_mem_intro f sections w hw idx h
  have hsome : ((allWorkerOut f sections w).find? (fun q => q.1 == idx)).isSome := by
    rw [List.find?_isSome]
    exact ⟨_, hmem, by simp⟩
  obtain ⟨y, hy⟩ := Option.isSome_iff_exists.mp hsome
  have hyp := List.find?_some hy
  have hymem := List.mem_of_find?_eq_some hy
  have hy1 : y.1 = idx := by simpa using hyp
  obtain ⟨hylen, hyval⟩ := allWorkerOut_mem_elim hymem
  rw [hy]
  have : y = (idx, processSection f (sections.get ⟨idx, h⟩)) := by
    obtain ⟨y1, y2⟩ := y
    simp only [] at hy1 hyval
    subst hy1
    rw [hyval]
  rw [this]

theorem reassemble_allWorkerOut {α : Type} (f : ℕ → α)
    (sections : List (ℕ × ℕ)) (w : ℕ) (hw : 0 < w) :
    reassemble (allWorkerOut f sections w) sections.length =
      sections.flatMap (processSection f) := by
  unfold reassemble
  rw [← range_flatMap_getD (processSection f) (0, 0) sections]
  rw [List.flatMap_def, List.flatMap_def]
  congr 1
  apply List.map_congr_left
  intro idx hidx
  rw [List.mem_range] at hidx
  rw [allWorkerOut_find f sections w hw idx hidx]
  rw [Option.map_some', Option.getD_some, List.get_eq_getElem,
    List.getD_eq_getElem _ _ hidx]

/-- Example flag sequence: clean, clean, usable jump at sample 2, DO_NOT_USE at
sample 3, clean tail — used as the concrete input of witness theorems. -/
def exFlags : List SampleDQ :=
  [⟨false, false, false⟩, ⟨false, false, false⟩, ⟨false, false, true⟩,
    ⟨true, false, false⟩, ⟨false, false, false⟩]

/-- C5: the segmenter's output on one pixel/integration consists of disjoint,
contiguous, ordered, nonempty runs: a sample lies in some segment exactly when
it precedes the first SATURATED sample and is not flagged DO_NOT_USE (so
DO_NOT_USE samples belong to no segment, and no segment starts at or reaches a
SATURATED sample or beyond — once saturated, nothing is segmented); each sample
lies in at most one segment; and a usable JUMP_DET sample begins a new segment
at the flagged sample itself, so the segment containing it starts exactly
there and the previous segment ended at the prior sample. -/
theorem C5_segmenter_runs (flags : List SampleDQ) :
    (∀ j, (∃ sg ∈ segmentRamp flags, memSeg sg j) ↔ goodAt flags j) ∧
    (segmentRamp flags).Pairwise (fun a b => a.1 + a.2 ≤ b.1) ∧
    (∀ sg ∈ segmentRamp flags, 0 < sg.2) ∧
    (∀ j sg tg, sg ∈ segmentRamp flags → tg ∈ segmentRamp flags →
      memSeg sg j → memSeg tg j → sg = tg) ∧
    (∀ sg ∈ segmentRamp flags, sg.1 + sg.2 ≤ satBound flags) ∧
    (∀ j, goodAt flags j → (flags.getD j defaultDQ).jumpDet = true →
      ∃ sg ∈ segmentRamp flags, sg.1 = j) ∧
    (∀ j, goodAt flags j → (flags.getD j defaultDQ).jumpDet = true →
      ∀ sg ∈ segmentRamp flags, memSeg sg j → sg.1 = j) := by
  have hinv : ∀ s l, (none : Option (ℕ × ℕ)) = some (s, l) →
      s + l = 0 ∧ 0 < l := by simp
  have hsorted := segmentFrom_sorted flags 0 none hinv
  have hcov : ∀ j, (∃ sg ∈ segmentRamp flags, memSeg sg j) ↔ goodAt flags j := by
    intro j
    rw [show segmentRamp flags = segmentFrom flags 0 none from rfl,
      segmentFrom_mem_iff flags 0 none hinv j]
    constructor
    · rintro (⟨s, l, h0, -⟩ | ⟨-, hg⟩)
      · exact absurd h0 (by simp)
      · rwa [Nat.sub_zero] at hg
    · intro hg
      exact Or.inr ⟨Nat.zero_le j, by rwa [Nat.sub_zero]⟩
  have hpos : ∀ sg ∈ segmentRamp flags, 0 < sg.2 :=
    fun sg h => (hsorted.2 sg h).1
  have huniq : ∀ j sg tg, sg ∈ segmentRamp flags → tg ∈ segmentRamp flags →
      memSeg sg j → memSeg tg j → sg = tg := by
    intro j sg tg hsg htg hm1 hm2
    have hp : (segmentRamp flags).Pairwise (fun a b => a.1 + a.2 ≤ b.1) :=
      hsorted.1
    rw [List.pairwise_iff_get] at hp
    obtain ⟨a, ha⟩ := List.mem_iff_get.mp hsg
    obtain ⟨b, hb⟩ := List.mem_iff_get.mp htg
    unfold memSeg at hm1 hm2
    rcases lt_trichotomy a b with hab | hab | hab
    · exfalso
      have hr := hp a b hab
      rw [ha, hb] at hr
      omega
    · subst hab
      exact ha.symm.trans hb
    · exfalso
      have hr := hp b a hab
      rw [ha, hb] at hr
      omega
  have hsatb : ∀ sg ∈ segmentRamp flags, sg.1 + sg.2 ≤ satBound flags := by
    intro sg hsg
    have hp := hpos sg hsg
    have hc : ∃ sg2 ∈ segmentRamp flags, memSeg sg2 (sg.1 + sg.2 - 1) :=
      ⟨sg, hsg, by unfold memSeg; omega⟩
    rw [hcov (sg.1 + sg.2 - 1)] at hc
    unfold goodAt at hc
    omega
  have hjs : ∀ j, goodAt flags j → (flags.getD j defaultDQ).jumpDet = true →
      ∃ sg ∈ segmentRamp flags, sg.1 = j := by
    intro j hg hj
    unfold goodAt at hg
    obtain ⟨hlt, hdnu⟩ := hg
    obtain ⟨sg, hm, hs⟩ := segmentFrom_jump_start flags 0 none j hlt hdnu hj
    exact ⟨sg, hm, by omega⟩
  refine ⟨hcov, hsorted.1, hpos, huniq, hsatb, hjs, ?_⟩
  intro j hg hj sg hsg hm
  obtain ⟨tg, htg, hts⟩ := hjs j hg hj
  have htm : memSeg tg j := by
    unfold memSeg
    have := hpos tg htg
    unfold goodAt at hg
    omega
  rw [huniq j sg tg hsg htg hm htm, hts]

/-- Witness for C5 at a concrete flag sequence: the usable JUMP_DET sample at
index 2 of `exFlags` begins a segment, and the DO_NOT_USE sample at index 3
belongs to no segment. -/
theorem C5_segmenter_runs_witness :
    (∃ sg ∈ segmentRamp exFlags, sg.1 = 2) ∧
    ¬(∃ sg ∈ segmentRamp exFlags, memSeg sg 3) := by
  constructor
  · exact (C5_segmenter_runs exFlags).2.2.2.2.2.1 2 (by decide) (by decide)
  · rw [(C5_segmenter_runs exFlags).1 3]
    decide

/-- C6: a pixel/integration with zero usable samples — every sample flagged
DO_NOT_USE or at/after a SATURATED sample — yields slope 0, sentinel variance
and the UNRELIABLE_SLOPE flag set; and such a pixel never aborts the batch:
the batch output always has one result per pixel, each being exactly that
pixel's own fit. -/
theorem C6_zero_usable_samples (fitSeg : ℕ × ℕ → CombInput)
    (pixels : List (List SampleDQ)) :
    (processBatch fitSeg pixels).length = pixels.length ∧
    (∀ i, (processBatch fitSeg pixels).getD i ⟨0, none, true⟩ =
      fitIntegration fitSeg (pixels.getD i [])) ∧
    (∀ flags, allUnusable flags →
      fitIntegration fitSeg flags = ⟨0, none, true⟩) := by
  refine ⟨by unfold processBatch; rw [List.length_map], ?_, ?_⟩
  · intro i
    unfold processBatch
    by_cases hi : i < pixels.length
    · rw [List.getD_eq_getElem _ _ (by rw [List.length_map]; exact hi),
        List.getElem_map, List.getD_eq_getElem _ _ hi]
    · have h1 : pixels.length ≤ i := le_of_not_lt hi
      rw [List.getD_eq_default _ _ (by rw [List.length_map]; exact h1),
        List.getD_eq_default _ _ h1]
      rfl
  · intro flags hA
    unfold fitIntegration
    rw [segmentRamp_eq_nil_of_allUnusable flags hA]
    rfl

/-- Witness for C6: an all-DO_NOT_USE pixel and a saturated-from-sample-0 pixel
both produce slope 0, sentinel variance, UNRELIABLE_SLOPE. -/
theorem C6_zero_usable_samples_witness :
    fitIntegration (fun sg => ((sg.2 : ℚ), some 1))
      [⟨true, false, false⟩, ⟨true, false, false⟩] = ⟨0, none, true⟩ ∧
    fitIntegration (fun sg => ((sg.2 : ℚ), some 1))
      [⟨false, true, false⟩, ⟨false, false, false⟩] = ⟨0, none, true⟩ := by
  constructor
  · exact (C6_zero_usable_samples _ []).2.2 _ (by decide)
  · exact (C6_zero_usable_samples _ []).2.2 _ (by decide)

/-- C3: the combiners use inverse-variance weighting: over exactly the
non-sentinel results, the combined slope is Σ(slopeᵢ/varᵢ)/Σ(1/varᵢ) and the
combined variance is 1/Σ(1/varᵢ); in particular two usable results with
slopes s₁,s₂ and variances V₁,V₂ combine to slope (s₁/V₁+s₂/V₂)/(1/V₁+1/V₂)
and variance 1/(1/V₁+1/V₂), and a sentinel-variance entry is excluded from the
sums. -/
theorem C3_inverse_variance_formula :
    (∀ rs : List CombInput, usableOf rs ≠ [] → combineResults rs =
      (ssum (usableOf rs) / wsum (usableOf rs),
        some (1 / wsum (usableOf rs)))) ∧
    (∀ s₁ s₂ V₁ V₂ : ℚ, combineResults [(s₁, some V₁), (s₂, some V₂)] =
      ((s₁ / V₁ + s₂ / V₂) / (1 / V₁ + 1 / V₂),
        some (1 / (1 / V₁ + 1 / V₂)))) ∧
    (∀ s₀ s₁ s₂ V₁ V₂ : ℚ,
      combineResults [(s₀, none), (s₁, some V₁), (s₂, some V₂)] =
        combineResults [(s₁, some V₁), (s₂, some V₂)]) := by
  refine ⟨fun rs h => combineResults_of_usable h, ?_, ?_⟩
  · intro s₁ s₂ V₁ V₂
    have hu : usableOf [(s₁, some V₁), (s₂, some V₂)] = [(s₁, V₁), (s₂, V₂)] := by
      unfold usableOf
      simp [List.filterMap_cons]
    rw [combineResults_of_usable (by rw [hu]; simp), hu]
    have hws : wsum [(s₁, V₁), (s₂, V₂)] = 1 / V₁ + 1 / V₂ := by
      unfold wsum; simp
    have hss : ssum [(s₁, V₁), (s₂, V₂)] = s₁ / V₁ + s₂ / V₂ := by
      unfold ssum; simp
    rw [hws, hss]
  · intro s₀ s₁ s₂ V₁ V₂
    apply combineResults_congr_usable
    unfold usableOf
    simp [List.filterMap_cons]

/-- Witness for C3 at concrete rational inputs. -/
theorem C3_inverse_variance_formula_witness :
    combineResults [((3 : ℚ), some 2), ((5 : ℚ), some 4)] =
      ((3 / 2 + 5 / 4) / (1 / 2 + 1 / 4), some (1 / (1 / 2 + 1 / 4))) ∧
    combineResults [((9 : ℚ), none), ((3 : ℚ), some 2), ((5 : ℚ), some 4)] =
      combineResults [((3 : ℚ), some 2), ((5 : ℚ), some 4)] ∧
    combineResults [((3 : ℚ), some 2)] =
      (ssum (usableOf [((3 : ℚ), some 2)]) / wsum (usableOf [((3 : ℚ), some 2)]),
        some (1 / wsum (usableOf [((3 : ℚ), some 2)]))) :=
  ⟨C3_inverse_variance_formula.2.1 3 5 2 4,
    C3_inverse_variance_formula.2.2 9 3 5 2 4,
    C3_inverse_variance_formula.1 _ (by decide)⟩

/-- C4: inverse-variance combination is order-independent and associative in
exact arithmetic: it is invariant under any permutation of its inputs (so
[A, B, C] combines as [C, B, A]); combining (A combined with B) with C equals
batch-combining [A, B, C]; and streaming the inputs one at a time equals batch
combination — the latter two for positive usable variances. -/
theorem C4_combination_order_invariant :
    (∀ rs rs₂ : List CombInput, rs.Perm rs₂ →
      combineResults rs = combineResults rs₂) ∧
    (∀ A B C : CombInput, posVar [A, B, C] →
      combineResults [combineResults [A, B], C] = combineResults [A, B, C]) ∧
    (∀ rs : List CombInput, posVar rs → streamCombine rs = combineResults rs) := by
  refine ⟨fun rs rs₂ h => combineResults_perm h, ?_,
    fun rs h => streamCombine_eq h⟩
  intro A B C h
  exact combine_snoc [A, B] C h

/-- Witness for C4 at concrete rational inputs, including a sentinel entry. -/
theorem C4_combination_order_invariant_witness :
    combineResults [((1 : ℚ), some 2), ((3 : ℚ), some 4), ((5 : ℚ), none)] =
      combineResults [((5 : ℚ), none), ((3 : ℚ), some 4), ((1 : ℚ), some 2)] ∧
    combineResults [combineResults [((1 : ℚ), some 2), ((3 : ℚ), some 4)],
        ((5 : ℚ), none)] =
      combineResults [((1 : ℚ), some 2), ((3 : ℚ), some 4), ((5 : ℚ), none)] ∧
    streamCombine [((1 : ℚ), some 2), ((3 : ℚ), some 4), ((5 : ℚ), none)] =
      combineResults [((1 : ℚ), some 2), ((3 : ℚ), some 4), ((5 : ℚ), none)] :=
  ⟨C4_combination_order_invariant.1 _ _ (by decide),
    C4_combination_order_invariant.2.1 _ _ _ (by decide),
    C4_combination_order_invariant.2.2 _ (by decide)⟩

/-- C9: the partition/process/reassemble pipeline is invariant to the worker
count policy: for every per-row pure fit, row count, section size and positive
CPU count, every policy (none, quarter, half, all) returns exactly the
sequential row-order results, so any two policies produce identical output. -/
theorem C9_worker_count_invariance {α : Type} (f : ℕ → α)
    (nrows chunk cpus : ℕ) (h : 0 < cpus) :
    (∀ p : MaxCores, runCore f nrows chunk p cpus = (List.range nrows).map f) ∧
    (∀ p q : MaxCores,
      runCore f nrows chunk p cpus = runCore f nrows chunk q cpus) := by
  have hmain : ∀ p : MaxCores,
      runCore f nrows chunk p cpus = (List.range nrows).map f := by
    intro p
    unfold runCore
    rw [reassemble_allWorkerOut f _ _ (policyWorkers_pos p cpus h),
      makeSections_flatMap f chunk nrows 0]
    apply List.map_congr_left
    intro a _
    rw [Nat.zero_add]
  exact ⟨hmain, fun p q => (hmain p).trans (hmain q).symm⟩

/-- Witness for C9: the half-cores policy on 5 rows with 4 CPUs returns the
sequential result. -/
theorem C9_worker_count_invariance_witness :
    runCore (fun k => k * k) 5 2 MaxCores.half 4 =
      (List.range 5).map fun k => k * k :=
  (C9_worker_count_invariance (fun k => k * k) 5 2 4 (by decide)).1
    MaxCores.half

/-- Concrete readnoise plane, constant 1, for counterexamples and witnesses. -/
def rnPlane : Plane := fun _ _ => 1

/-- Concrete gain plane, constant 4. -/
def gainPlane : Plane := fun _ _ => 4

/-- Concrete all-zero science cube. -/
def zeroCube : Cube := fun _ _ _ _ => 0

/-- Concrete all-zero data-quality cube. -/
def zeroDQCube : GroupDQCube := fun _ _ _ _ => 0

/-- Concrete exposure metadata with nframes = 2 (so sqrt(2 * nframes) = 2). -/
def cexMeta : ExposureMeta :=
  { name := "MIRI", frame_time := 1, exp_ngroups := 5, group_time := 1,
    groupgap := 0, nframes := 2, drop_frames1 := 0 }

/-- Concrete input data model for counterexamples and witnesses. -/
def cexModel : RampModel :=
  { data := zeroCube, err := zeroCube, groupdq := zeroDQCube,
    pixeldq := fun _ _ => 0, int_times := [], meta := cexMeta }

/-- A fully mapped flag dictionary. -/
def goodFlags : DQFlagsMap :=
  { doNotUse := some 1, saturated := some 2, jumpDet := some 4,
    noGainValue := some 8, unreliableSlope := some 16 }

/-- A flag dictionary whose DO_NOT_USE entry is unmapped (None). -/
def badFlags : DQFlagsMap :=
  { doNotUse := none, saturated := some 2, jumpDet := some 4,
    noGainValue := some 8, unreliableSlope := some 16 }

/-- A trivial stand-in for `ols_ramp_fit_multi` returning unit results. -/
def unitOls : RampFitInternal → ℕ → Bool → Plane → Plane → String → String →
    Unit × Unit × Unit := fun _ _ _ _ _ _ _ => ((), (), ())

/-- C1 (amended): when any required DQ flag is unmapped (None), `ramp_fit`
raises the `ValueError` before any fitting begins — the result does not depend
on the OLS fitting function and the readnoise and gain arrays are untouched —
but the module-level flag mapping `constants.dqflags` is overwritten in place
with the passed mapping, so observable module state does change whenever the
mapping differed at entry. -/
theorem C1_unmapped_flag_fails_fast {α β γ δ : Type}
    (olsFit olsFit₂ : RampFitInternal → ℕ → Bool → Plane → Plane → String →
      String → α × β × γ)
    (constants0 : DQFlagsMap) (model : RampModel) (buffsize : ℕ)
    (save_opt : Bool) (readnoise_2d gain_2d : Plane)
    (algorithm weighting max_cores : String) (dqflags : DQFlagsMap)
    (h : dqflags.hasNone = true) :
    ((ramp_fit olsFit constants0 model buffsize save_opt readnoise_2d gain_2d
        algorithm weighting max_cores dqflags : RampFitEffect α β γ δ).outcome =
      .error "Some of the DQ flags required for ramp_fitting are None.") ∧
    ((ramp_fit olsFit constants0 model buffsize save_opt readnoise_2d gain_2d
        algorithm weighting max_cores dqflags :
          RampFitEffect α β γ δ).readnoiseAfter = readnoise_2d) ∧
    ((ramp_fit olsFit constants0 model buffsize save_opt readnoise_2d gain_2d
        algorithm weighting max_cores dqflags :
          RampFitEffect α β γ δ).gainAfter = gain_2d) ∧
    ((ramp_fit olsFit constants0 model buffsize save_opt readnoise_2d gain_2d
        algorithm weighting max_cores dqflags :
          RampFitEffect α β γ δ).constantsAfter = dqflags) ∧
    (ramp_fit olsFit constants0 model buffsize save_opt readnoise_2d gain_2d
        algorithm weighting max_cores dqflags : RampFitEffect α β γ δ) =
      ramp_fit olsFit₂ constants0 model buffsize save_opt readnoise_2d gain_2d
        algorithm weighting max_cores dqflags := by
  refine ⟨?_, ?_, ?_, ?_, ?_⟩ <;> simp [ramp_fit, update_dqflags, h]

/-- Witness for C1 at a concrete call with an unmapped DO_NOT_USE flag. -/
theorem C1_unmapped_flag_fails_fast_witness :
    badFlags.hasNone = true ∧
    (ramp_fit unitOls goodFlags cexModel 0 false rnPlane gainPlane "OLS"
        "optimal" "none" badFlags : RampFitEffect Unit Unit Unit Unit).outcome =
      .error "Some of the DQ flags required for ramp_fitting are None." :=
  ⟨by decide,
    (C1_unmapped_flag_fails_fast unitOls unitOls goodFlags cexModel 0 false
      rnPlane gainPlane "OLS" "optimal" "none" badFlags (by decide)).1⟩

/-- Counterexample to C1 as stated: the failed call raises the `ValueError`,
yet observable state does change — the module-level flag mapping, fully
populated at entry (`goodFlags`), holds the unmapped input mapping after the
call. -/
theorem C1_state_change_counterexample :
    ((ramp_fit unitOls goodFlags cexModel 0 false rnPlane gainPlane "OLS"
        "optimal" "none" badFlags : RampFitEffect Unit Unit Unit Unit).outcome =
      .error "Some of the DQ flags required for ramp_fitting are None.") ∧
    (ramp_fit unitOls goodFlags cexModel 0 false rnPlane gainPlane "OLS"
        "optimal" "none" badFlags :
          RampFitEffect Unit Unit Unit Unit).constantsAfter ≠ goodFlags := by
  constructor
  · rfl
  · intro hcontra
    have h1 : (ramp_fit unitOls goodFlags cexModel 0 false rnPlane gainPlane
        "OLS" "optimal" "none" badFlags :
          RampFitEffect Unit Unit Unit Unit).constantsAfter = badFlags := rfl
    rw [h1] at hcontra
    exact absurd hcontra (by decide)

/-- C2 (amended): `ramp_fit` never mutates the gain plane, and leaves the
readnoise plane untouched on the configuration-error and GLS paths; but on the
OLS path it scales the caller's readnoise array in place by
gain / sqrt(2 * nframes), so the readnoise input does not in general hold its
entry values after the call. -/
theorem C2_input_mutation {α β γ δ : Type}
    (olsFit : RampFitInternal → ℕ → Bool → Plane → Plane → String → String →
      α × β × γ)
    (constants0 : DQFlagsMap) (model : RampModel) (buffsize : ℕ)
    (save_opt : Bool) (readnoise_2d gain_2d : Plane)
    (algorithm weighting max_cores : String) (dqflags : DQFlagsMap) :
    ((ramp_fit olsFit constants0 model buffsize save_opt readnoise_2d gain_2d
        algorithm weighting max_cores dqflags :
          RampFitEffect α β γ δ).gainAfter = gain_2d) ∧
    (dqflags.hasNone = true →
      (ramp_fit olsFit constants0 model buffsize save_opt readnoise_2d gain_2d
        algorithm weighting max_cores dqflags :
          RampFitEffect α β γ δ).readnoiseAfter = readnoise_2d) ∧
    (dqflags.hasNone = false → strUpper algorithm = "GLS" →
      (ramp_fit olsFit constants0 model buffsize save_opt readnoise_2d gain_2d
        algorithm weighting max_cores dqflags :
          RampFitEffect α β γ δ).readnoiseAfter = readnoise_2d) ∧
    (dqflags.hasNone = false → strUpper algorithm ≠ "GLS" →
      (ramp_fit olsFit constants0 model buffsize save_opt readnoise_2d gain_2d
        algorithm weighting max_cores dqflags :
          RampFitEffect α β γ δ).readnoiseAfter = fun r c =>
        readnoise_2d r c *
          (gain_2d r c / Real.sqrt (2 * (model.meta.nframes : ℝ)))) := by
  refine ⟨?_, ?_, ?_, ?_⟩
  · by_cases h1 : dqflags.hasNone = true
    · simp [ramp_fit, update_dqflags, h1]
    · by_cases h2 : strUpper algorithm = "GLS" <;>
        simp [ramp_fit, update_dqflags, h1, h2]
  · intro h1
    simp [ramp_fit, update_dqflags, h1]
  · intro h1 h2
    simp [ramp_fit, update_dqflags, h1, h2]
  · intro h1 h2
    simp [ramp_fit, update_dqflags, h1, h2]

/-- Witness for C2 at concrete calls: on the config-error path and on the GLS
path the readnoise array is unchanged. -/
theorem C2_input_mutation_witness :
    ((ramp_fit unitOls goodFlags cexModel 0 false rnPlane gainPlane "OLS"
        "optimal" "none" badFlags :
          RampFitEffect Unit Unit Unit Unit).readnoiseAfter = rnPlane) ∧
    ((ramp_fit unitOls goodFlags cexModel 0 false rnPlane gainPlane "gls"
        "optimal" "none" goodFlags :
          RampFitEffect Unit Unit Unit Unit).readnoiseAfter = rnPlane) :=
  ⟨(C2_input_mutation unitOls goodFlags cexModel 0 false rnPlane gainPlane
      "OLS" "optimal" "none" badFlags).2.1 (by decide),
    (C2_input_mutation unitOls goodFlags cexModel 0 false rnPlane gainPlane
      "gls" "optimal" "none" goodFlags).2.2.1 (by decide) (by decide)⟩

/-- Counterexample to C2 as stated: the in-place `readnoise_2d *= gain_2d /
sqrt(2*nframes)` on the OLS path mutates the caller's readnoise array — with
readnoise 1, gain 4 and nframes 2 the entry (0,0) holds 2, not 1, after the
call. -/
theorem C2_mutation_counterexample :
    (ramp_fit unitOls goodFlags cexModel 0 false rnPlane gainPlane "OLS"
        "optimal" "none" goodFlags :
          RampFitEffect Unit Unit Unit Unit).readnoiseAfter 0 0 ≠
      rnPlane 0 0 := by
  have h1 : goodFlags.hasNone = false := by decide
  have h2 : ¬(strUpper "OLS" = "GLS") := by decide
  have hred : (ramp_fit unitOls goodFlags cexModel 0 false rnPlane gainPlane
      "OLS" "optimal" "none" goodFlags :
        RampFitEffect Unit Unit Unit Unit).readnoiseAfter 0 0 =
      1 * (4 / Real.sqrt (2 * ((2 : ℕ) : ℝ))) := by
    simp [ramp_fit, update_dqflags, h1, h2, rnPlane, gainPlane, cexModel,
      cexMeta]
  have hs : Real.sqrt (2 * ((2 : ℕ) : ℝ)) = 2 := by
    rw [show (2 * ((2 : ℕ) : ℝ)) = 2 ^ 2 by norm_num]
    exact Real.sqrt_sq (by norm_num)
  rw [hred, hs]
  norm_num [rnPlane]

/-- C7: on the OLS path (valid flags, algorithm not upper-casing to "GLS"),
the readnoise the core fitting operates on — both the argument handed to
`ols_ramp_fit_multi` and the contents of the readnoise array after the
in-place scaling — equals, at every pixel, the input readnoise value
multiplied by gain / sqrt(2 * nframes). -/
theorem C7_readnoise_prescaled {α β γ δ : Type}
    (olsFit : RampFitInternal → ℕ → Bool → Plane → Plane → String → String →
      α × β × γ)
    (constants0 : DQFlagsMap) (model : RampModel) (buffsize : ℕ)
    (save_opt : Bool) (readnoise_2d gain_2d : Plane)
    (algorithm weighting max_cores : String) (dqflags : DQFlagsMap)
    (h1 : dqflags.hasNone = false) (h2 : strUpper algorithm ≠ "GLS") :
    ((ramp_fit olsFit constants0 model buffsize save_opt readnoise_2d gain_2d
        algorithm weighting max_cores dqflags : RampFitEffect α β γ δ).outcome =
      .ok
        (some (olsFit (create_ramp_fit_class model dqflags) buffsize save_opt
          (fun r c => readnoise_2d r c *
            (gain_2d r c / Real.sqrt (2 * (model.meta.nframes : ℝ))))
          gain_2d weighting max_cores).1,
        some (olsFit (create_ramp_fit_class model dqflags) buffsize save_opt
          (fun r c => readnoise_2d r c *
            (gain_2d r c / Real.sqrt (2 * (model.meta.nframes : ℝ))))
          gain_2d weighting max_cores).2.1,
        some (olsFit (create_ramp_fit_class model dqflags) buffsize save_opt
          (fun r c => readnoise_2d r c *
            (gain_2d r c / Real.sqrt (2 * (model.meta.nframes : ℝ))))
          gain_2d weighting max_cores).2.2,
        none)) ∧
    ((ramp_fit olsFit constants0 model buffsize save_opt readnoise_2d gain_2d
        algorithm weighting max_cores dqflags :
          RampFitEffect α β γ δ).readnoiseAfter = fun r c =>
      readnoise_2d r c *
        (gain_2d r c / Real.sqrt (2 * (model.meta.nframes : ℝ)))) := by
  constructor <;> simp [ramp_fit, update_dqflags, h1, h2]

/-- Witness for C7 at a concrete OLS call. -/
theorem C7_readnoise_prescaled_witness :
    (ramp_fit unitOls goodFlags cexModel 0 false rnPlane gainPlane "OLS"
        "optimal" "none" goodFlags :
          RampFitEffect Unit Unit Unit Unit).readnoiseAfter = fun r c =>
      rnPlane r c *
        (gainPlane r c / Real.sqrt (2 * (cexModel.meta.nframes : ℝ))) :=
  (C7_readnoise_prescaled unitOls goodFlags cexModel 0 false rnPlane gainPlane
    "OLS" "optimal" "none" goodFlags (by decide) (by decide)).2

/-- C8: with a valid flag mapping and an algorithm string upper-casing to
"GLS", no fitting is performed — the result is independent of the OLS fitting
function and the readnoise array is untouched — and the call returns None for
image_info, integ_info, opt_info and gls_opt_model rather than silently
succeeding as a fit. -/
theorem C8_gls_stub {α β γ δ : Type}
    (olsFit olsFit₂ : RampFitInternal → ℕ → Bool → Plane → Plane → String →
      String → α × β × γ)
    (constants0 : DQFlagsMap) (model : RampModel) (buffsize : ℕ)
    (save_opt : Bool) (readnoise_2d gain_2d : Plane)
    (algorithm weighting max_cores : String) (dqflags : DQFlagsMap)
    (h1 : dqflags.hasNone = false) (h2 : strUpper algorithm = "GLS") :
    ((ramp_fit olsFit constants0 model buffsize save_opt readnoise_2d gain_2d
        algorithm weighting max_cores dqflags : RampFitEffect α β γ δ).outcome =
      .ok (none, none, none, none)) ∧
    ((ramp_fit olsFit constants0 model buffsize save_opt readnoise_2d gain_2d
        algorithm weighting max_cores dqflags :
          RampFitEffect α β γ δ).readnoiseAfter = readnoise_2d) ∧
    (ramp_fit olsFit constants0 model buffsize save_opt readnoise_2d gain_2d
        algorithm weighting max_cores dqflags : RampFitEffect α β γ δ) =
      ramp_fit olsFit₂ constants0 model buffsize save_opt readnoise_2d gain_2d
        algorithm weighting max_cores dqflags := by
  refine ⟨?_, ?_, ?_⟩ <;> simp [ramp_fit, update_dqflags, h1, h2]

/-- Witness for C8: a lowercase "gls" algorithm string yields the four-None
result. -/
theorem C8_gls_stub_witness :
    strUpper "gls" = "GLS" ∧
    (ramp_fit unitOls goodFlags cexModel 0 false rnPlane gainPlane "gls"
        "optimal" "none" goodFlags : RampFitEffect Unit Unit Unit Unit).outcome =
      .ok (none, none, none, none) :=
  ⟨by decide,
    (C8_gls_stub unitOls unitOls goodFlags cexModel 0 false rnPlane gainPlane
      "gls" "optimal" "none" goodFlags (by decide) (by decide)).1⟩

/-- C10: `ramp_fit` validates only the DQ-flag configuration, never the
algorithm name: for every algorithm string whose upper-cased form is not
"GLS" — including misspellings and arbitrary names — the call dispatches to
the ordinary-least-squares path and returns its results, raising no error. -/
theorem C10_algorithm_not_validated {α β γ δ : Type}
    (olsFit : RampFitInternal → ℕ → Bool → Plane → Plane → String → String →
      α × β × γ)
    (constants0 : DQFlagsMap) (model : RampModel) (buffsize : ℕ)
    (save_opt : Bool) (readnoise_2d gain_2d : Plane)
    (algorithm weighting max_cores : String) (dqflags : DQFlagsMap)
    (h1 : dqflags.hasNone = false) (h2 : strUpper algorithm ≠ "GLS") :
    ((ramp_fit olsFit constants0 model buffsize save_opt readnoise_2d gain_2d
        algorithm weighting max_cores dqflags : RampFitEffect α β γ δ).outcome =
      .ok
        (some (olsFit (create_ramp_fit_class model dqflags) buffsize save_opt
          (fun r c => readnoise_2d r c *
            (gain_2d r c / Real.sqrt (2 * (model.meta.nframes : ℝ))))
          gain_2d weighting max_cores).1,
        some (olsFit (create_ramp_fit_class model dqflags) buffsize save_opt
          (fun r c => readnoise_2d r c *
            (gain_2d r c / Real.sqrt (2 * (model.meta.nframes : ℝ))))
          gain_2d weighting max_cores).2.1,
        some (olsFit (create_ramp_fit_class model dqflags) buffsize save_opt
          (fun r c => readnoise_2d r c *
            (gain_2d r c / Real.sqrt (2 * (model.meta.nframes : ℝ))))
          gain_2d weighting max_cores).2.2,
        none)) ∧
    (∀ msg, (ramp_fit olsFit constants0 model buffsize save_opt readnoise_2d
        gain_2d algorithm weighting max_cores dqflags :
          RampFitEffect α β γ δ).outcome ≠ .error msg) := by
  constructor
  · simp [ramp_fit, update_dqflags, h1, h2]
  · intro msg
    simp [ramp_fit, update_dqflags, h1, h2]

/-- Witness for C10: the misspelled algorithm name "LOS" silently dispatches
to the OLS path and raises no error. -/
theorem C10_algorithm_not_validated_witness :
    ((ramp_fit unitOls goodFlags cexModel 0 false rnPlane gainPlane "LOS"
        "optimal" "none" goodFlags : RampFitEffect Unit Unit Unit Unit).outcome =
      .ok (some (), some (), some (), none)) ∧
    (∀ msg, (ramp_fit unitOls goodFlags cexModel 0 false rnPlane gainPlane
        "LOS" "optimal" "none" goodFlags :
          RampFitEffect Unit Unit Unit Unit).outcome ≠ .error msg) :=
  ⟨(C10_algorithm_not_validated unitOls goodFlags cexModel 0 false rnPlane
      gainPlane "LOS" "optimal" "none" goodFlags (by decide) (by decide)).1,
    (C10_algorithm_not_validated unitOls goodFlags cexModel 0 false rnPlane
      gainPlane "LOS" "optimal" "none" goodFlags (by decide) (by decide)).2⟩
